import Mathlib

/-!
Verification development for the metasearch extraction & adapter framework.

Rust strings that flow through the URL cleaners and the DOM are modelled as
byte sequences (`List Nat`, each entry a UTF-8 byte).  Fallible Rust code
(`eyre::Result`) together with the possibility of a panic is modelled by the
`RustRes` type below.  External crates (url, base64, serde_json, scraper's
HTML parser and CSS selector engine, the standard library's UTF-8 machinery)
are modelled from their documented behavior, as the specification treats them
as external collaborators; every function of the repository itself is
translated line by line from the source.
-/

/-- Bytes of an ASCII string literal (used to write byte-string constants). -/
def bs (s : String) : List Nat := s.toList.map Char.toNat

/-- Outcome of running a piece of Rust code that may panic (`panicked`),
return an error through `eyre::Result` (`err`), or succeed (`ok`). -/
inductive RustRes (α : Type) where
  | panicked : RustRes α
  | err : String → RustRes α
  | ok : α → RustRes α
deriving DecidableEq, Repr

/-- Everything after the first occurrence of byte `t` (empty if absent). -/
def afterFirst (t : Nat) : List Nat → List Nat
  | [] => []
  | b :: rest => if b = t then rest else afterFirst t rest

/-- Split a byte string on a separator byte. -/
def splitSep (sep : Nat) : List Nat → List (List Nat)
  | [] => [[]]
  | b :: rest =>
    if b = sep then [] :: splitSep sep rest
    else
      match splitSep sep rest with
      | [] => [[b]]
      | h :: t => (b :: h) :: t

/-- Value of a hex digit byte, if it is one.  Modelled from the spec:
percent-escape decoding of the external `url`/`form_urlencoded` crate. -/
def hexVal (b : Nat) : Option Nat :=
  if 48 ≤ b ∧ b ≤ 57 then some (b - 48)
  else if 65 ≤ b ∧ b ≤ 70 then some (b - 55)
  else if 97 ≤ b ∧ b ≤ 102 then some (b - 87)
  else none

/-- `application/x-www-form-urlencoded` decoding of one key or value:
`+` becomes a space and `%XY` hex escapes are decoded.  Modelled from the
spec: behavior of the external `url` crate's `query_pairs`. -/
def pctDecode : List Nat → List Nat
  | [] => []
  | [b] => if b = 43 then [32] else [b]
  | [b, b2] =>
    if b = 43 then 32 :: pctDecode [b2]
    else if b = 37 then 37 :: pctDecode [b2]
    else b :: pctDecode [b2]
  | b :: d1 :: d2 :: rest =>
    if b = 43 then 32 :: pctDecode (d1 :: d2 :: rest)
    else if b = 37 then
      match hexVal d1, hexVal d2 with
      | some hv, some lv => (hv * 16 + lv) :: pctDecode rest
      | _, _ => 37 :: pctDecode (d1 :: d2 :: rest)
    else b :: pctDecode (d1 :: d2 :: rest)

/-- The query component of a URL string: everything after the first `?` and
before the first `#`.  Modelled from the spec: the external `url` crate. -/
def urlQuery (url : List Nat) : List Nat :=
  (afterFirst 63 url).takeWhile (fun b => b ≠ 35)

/-- Key of a `key=value` chunk (the part before the first `=`). -/
def chunkKey (chunk : List Nat) : List Nat :=
  chunk.takeWhile (fun b => b ≠ 61)

/-- Value of a `key=value` chunk (the part after the first `=`; empty when
there is no `=`). -/
def chunkVal (chunk : List Nat) : List Nat :=
  if (chunk.contains 61 : Bool) then afterFirst 61 chunk else []

/-- First decoded value of the query pair whose decoded key is `key`, as
produced by `url::Url::query_pairs().find(..)`.  Empty chunks between `&`
separators yield no pair.  Modelled from the spec: the external `url`
crate. -/
def findQueryParam (key : List Nat) (q : List Nat) : Option (List Nat) :=
  ((splitSep 38 q).filter (fun c => c ≠ [])).findSome? fun chunk =>
    if pctDecode (chunkKey chunk) = key then some (pctDecode (chunkVal chunk))
    else none

/-- Is `b` a UTF-8 continuation byte? -/
def isContByte (b : Nat) : Bool := 128 ≤ b && b < 192

/-- Rust's `&u[2..]` on a string slice: panics (`none`) when the string is
shorter than two bytes or byte index 2 is not a character boundary;
otherwise drops the first two bytes. -/
def strSliceFrom2 : List Nat → Option (List Nat)
  | [] => none
  | [_] => none
  | _ :: _ :: rest =>
    match rest with
    | [] => some []
    | b :: _ => if isContByte b then none else some rest

/-! ## URL-safe unpadded base64 (external `base64` crate, modelled from the
spec: "base64 (URL-safe, unpadded)") -/

/-- The URL-safe base64 alphabet, as bytes. -/
def b64Alpha : List Nat :=
  bs "ABCDEFGHIJKLMNOPQRSTUVWXYZabcdefghijklmnopqrstuvwxyz0123456789-_"

/-- Byte of the base64 digit with value `v`. -/
def b64Chr (v : Nat) : Nat := b64Alpha.getD v 0

/-- Value of a base64 digit byte, if it is in the alphabet. -/
def b64Idx (b : Nat) : Option Nat :=
  (List.range 64).find? (fun v => b64Chr v = b)

/-- URL-safe unpadded base64 encoding of a byte sequence. -/
def b64Encode : List Nat → List Nat
  | [] => []
  | [b1] => [b64Chr (b1 / 4), b64Chr (b1 % 4 * 16)]
  | [b1, b2] =>
    [b64Chr (b1 / 4), b64Chr (b1 % 4 * 16 + b2 / 16), b64Chr (b2 % 16 * 4)]
  | b1 :: b2 :: b3 :: rest =>
    b64Chr (b1 / 4) :: b64Chr (b1 % 4 * 16 + b2 / 16) ::
      b64Chr (b2 % 16 * 4 + b3 / 64) :: b64Chr (b3 % 64) :: b64Encode rest

/-- URL-safe unpadded base64 decoding: rejects bytes outside the alphabet,
inputs of length 1 mod 4, and nonzero trailing bits. -/
def b64Decode : List Nat → Option (List Nat)
  | [] => some []
  | [_] => none
  | [c1, c2] =>
    match b64Idx c1, b64Idx c2 with
    | some v1, some v2 =>
      if v2 % 16 = 0 then some [v1 * 4 + v2 / 16] else none
    | _, _ => none
  | [c1, c2, c3] =>
    match b64Idx c1, b64Idx c2, b64Idx c3 with
    | some v1, some v2, some v3 =>
      if v3 % 4 = 0 then some [v1 * 4 + v2 / 16, v2 % 16 * 16 + v3 / 4]
      else none
    | _, _, _ => none
  | c1 :: c2 :: c3 :: c4 :: rest =>
    match b64Idx c1, b64Idx c2, b64Idx c3, b64Idx c4 with
    | some v1, some v2, some v3, some v4 =>
      match b64Decode rest with
      | some tail =>
        some ((v1 * 4 + v2 / 16) :: (v2 % 16 * 16 + v3 / 4) ::
          (v3 % 4 * 64 + v4) :: tail)
      | none => none
    | _, _, _, _ => none

/-! ## UTF-8 (modelled from the spec: Rust std `String::from_utf8_lossy`) -/

/-- UTF-8 bytes of the replacement character U+FFFD. -/
def replChar : List Nat := [239, 191, 189]

/-- Number of bytes of a well-formed UTF-8 sequence led by byte `b`
(0 when `b` cannot lead a sequence). -/
def u8len (b : Nat) : Nat :=
  if b < 128 then 1
  else if 194 ≤ b ∧ b ≤ 223 then 2
  else if 224 ≤ b ∧ b ≤ 239 then 3
  else if 240 ≤ b ∧ b ≤ 244 then 4
  else 0

/-- Is `b2` an acceptable second byte after leader `b`?  (The leaders 224,
237, 240 and 244 restrict the second byte beyond the plain continuation
range.) -/
def b2ok (b b2 : Nat) : Bool :=
  if b = 224 then 160 ≤ b2 && b2 ≤ 191
  else if b = 237 then 128 ≤ b2 && b2 ≤ 159
  else if b = 240 then 144 ≤ b2 && b2 ≤ 191
  else if b = 244 then 128 ≤ b2 && b2 ≤ 143
  else isContByte b2

/-- Lossy UTF-8 decoding re-encoded as bytes: well-formed scalar-value
sequences are kept verbatim, ill-formed bytes are replaced with the
replacement character.  Modelled from the spec: Rust std
`String::from_utf8_lossy`. -/
def utf8Lossy : List Nat → List Nat
  | [] => []
  | [b] => if u8len b = 1 then [b] else replChar
  | [b, b2] =>
    if u8len b = 1 then b :: utf8Lossy [b2]
    else if u8len b = 2 ∧ b2ok b b2 then [b, b2]
    else replChar ++ utf8Lossy [b2]
  | [b, b2, b3] =>
    if u8len b = 1 then b :: utf8Lossy [b2, b3]
    else if u8len b = 2 ∧ b2ok b b2 then b :: b2 :: utf8Lossy [b3]
    else if u8len b = 3 ∧ b2ok b b2 ∧ isContByte b3 then [b, b2, b3]
    else replChar ++ utf8Lossy [b2, b3]
  | b :: b2 :: b3 :: b4 :: rest =>
    if u8len b = 1 then b :: utf8Lossy (b2 :: b3 :: b4 :: rest)
    else if u8len b = 2 ∧ b2ok b b2 then b :: b2 :: utf8Lossy (b3 :: b4 :: rest)
    else if u8len b = 3 ∧ b2ok b b2 ∧ isContByte b3 then
      b :: b2 :: b3 :: utf8Lossy (b4 :: rest)
    else if u8len b = 4 ∧ b2ok b b2 ∧ isContByte b3 ∧ isContByte b4 then
      b :: b2 :: b3 :: b4 :: utf8Lossy rest
    else replChar ++ utf8Lossy (b2 :: b3 :: b4 :: rest)

/-- Is the byte sequence well-formed UTF-8 (so that `utf8Lossy` keeps it
verbatim)? -/
def validUtf8 : List Nat → Bool
  | [] => true
  | [b] => u8len b = 1
  | [b, b2] =>
    if u8len b = 1 then validUtf8 [b2]
    else (decide (u8len b = 2) && b2ok b b2)
  | [b, b2, b3] =>
    if u8len b = 1 then validUtf8 [b2, b3]
    else if u8len b = 2 ∧ b2ok b b2 then validUtf8 [b3]
    else (decide (u8len b = 3) && b2ok b b2 && isContByte b3)
  | b :: b2 :: b3 :: b4 :: rest =>
    if u8len b = 1 then validUtf8 (b2 :: b3 :: b4 :: rest)
    else if u8len b = 2 ∧ b2ok b b2 then validUtf8 (b3 :: b4 :: rest)
    else if u8len b = 3 ∧ b2ok b b2 ∧ isContByte b3 then validUtf8 (b4 :: rest)
    else if u8len b = 4 ∧ b2ok b b2 ∧ isContByte b3 ∧ isContByte b4 then
      validUtf8 rest
    else false

/-! ## URL cleaners (src/engines/search/bing.rs `clean_url`,
src/engines/search/google.rs `clean_url`) -/

/-- The Bing tracking-link marker `https://www.bing.com/ck/a?`. -/
def bingTrackMark : List Nat := bs "https://www.bing.com/ck/a?"

/-- Bing's `clean_url` (src/engines/search/bing.rs lines 258-277): on a
tracking link, finds the `u` query parameter (empty when absent), slices off
its first two bytes with `&u[2..]` (a Rust string-index operation that
panics when the parameter is shorter than two bytes), base64-decodes the
rest with `unwrap_or_default`, and converts the bytes to a string lossily;
any other URL is returned unchanged. -/
def bingCleanUrl (url : List Nat) : RustRes (List Nat) :=
  if bingTrackMark.isPrefixOf url then
    let u := (findQueryParam (bs "u") (urlQuery url)).getD []
    match strSliceFrom2 u with
    | none => .panicked
    | some payload => .ok (utf8Lossy ((b64Decode payload).getD []))
  else .ok url

/-- The Google tracking-link marker `/url?q=`. -/
def googleTrackMark : List Nat := bs "/url?q="

/-- Google's `clean_url` (src/engines/search/google.rs lines 308-321): on a
relative tracking link, resolves it against `https://www.google.com` and
returns the decoded `q` query parameter (empty when absent); any other URL
is returned unchanged. -/
def googleCleanUrl (url : List Nat) : RustRes (List Nat) :=
  if googleTrackMark.isPrefixOf url then
    let q := (findQueryParam (bs "q")
      (urlQuery (bs "https://www.google.com" ++ url))).getD []
    .ok q
  else .ok url


/-! ## DOM model (the scraper crate's HTML tree and CSS selectors are
external collaborators; the tree, text collection, attribute access and
document-order element iteration are modelled from the spec, and each
engine's CSS selector strings are modelled as element predicates) -/

/-- A parsed HTML node: text, comment, or element with tag name, attributes,
classes and children.  Modelled from the spec: the external scraper crate's
DOM. -/
inductive Node where
  | text (s : List Nat)
  | comment
  | element (tag : List Nat) (attrs : List (List Nat × List Nat))
      (classes : List (List Nat)) (children : List Node)

/-- Children of a node (empty for non-elements). -/
def Node.childNodes : Node → List Node
  | .element _ _ _ cs => cs
  | _ => []

/-- Attributes of a node (empty for non-elements). -/
def Node.attrList : Node → List (List Nat × List Nat)
  | .element _ attrs _ _ => attrs
  | _ => []

/-- `n.value().attr(name)`: first attribute with the given name. -/
def attrOf (n : Node) (name : List Nat) : Option (List Nat) :=
  (n.attrList.find? (fun p => p.1 = name)).map Prod.snd

/-- Is the node an element? -/
def Node.isElem : Node → Bool
  | .element _ _ _ _ => true
  | _ => false

/-- `has_class` with case-sensitive comparison. -/
def Node.hasClass (n : Node) (c : List Nat) : Bool :=
  match n with
  | .element _ _ classes _ => classes.contains c
  | _ => false

mutual

/-- `ElementRef::text().collect::<String>()`: concatenated text of all
descendant text nodes, in document order. -/
def Node.textContent : Node → List Nat
  | .text s => s
  | .comment => []
  | .element _ _ _ cs => textContentList cs

def textContentList : List Node → List Nat
  | [] => []
  | n :: rest => Node.textContent n ++ textContentList rest

end

mutual

/-- All strict descendants of a node, in document (pre-)order. -/
def Node.descendants : Node → List Node
  | .text _ => []
  | .comment => []
  | .element _ _ _ cs => descendantsList cs

def descendantsList : List Node → List Node
  | [] => []
  | n :: rest => n :: (Node.descendants n ++ descendantsList rest)

end

/-- A CSS selector, modelled as a predicate on nodes (the scraper crate's
selector matching is an external collaborator). -/
abbrev Sel := Node → Bool

/-- `select`: the descendants matching a selector, in document order. -/
def select (sel : Sel) (n : Node) : List Node :=
  (Node.descendants n).filter sel

/-! ## Generic extraction engine (src/parse.rs) -/

/-- src/parse.rs `EngineSearchResult`. -/
structure EngineSearchResult where
  url : List Nat
  title : List Nat
  description : List Nat
deriving DecidableEq, Repr

/-- src/parse.rs `EngineFeaturedSnippet`. -/
structure EngineFeaturedSnippet where
  url : List Nat
  title : List Nat
  description : List Nat
deriving DecidableEq, Repr

/-- `EngineResponse`: ordered results plus optional featured snippet (the
`answer_html`/`infobox_html` fields are used by instant answers only and are
always `none` here). -/
structure EngineResponse where
  search_results : List EngineSearchResult
  featured_snippet : Option EngineFeaturedSnippet
  answer_html : Option (List Nat)
  infobox_html : Option (List Nat)
deriving DecidableEq, Repr

/-- src/parse.rs `QueryMethod`: no extraction, a CSS selector, or a manual
extraction function (which may fail or panic). -/
inductive QueryMethod where
  | none
  | cssSelector (sel : Sel)
  | manual (f : Node → RustRes (List Nat))

/-- src/parse.rs `ParseOpts`. -/
structure ParseOpts where
  result : Option Sel
  title : QueryMethod
  href : QueryMethod
  description : QueryMethod
  featured_snippet : Option Sel
  featured_snippet_title : QueryMethod
  featured_snippet_href : QueryMethod
  featured_snippet_description : QueryMethod

/-- src/parse.rs `QueryMethod::call`: `None` yields the empty string, a CSS
selector yields the first match's text (empty when unmatched), and a manual
function runs as given. -/
def QueryMethod.call : QueryMethod → Node → RustRes (List Nat)
  | .none, _ => .ok []
  | .cssSelector sel, el =>
    .ok (((select sel el).head?.map Node.textContent).getD [])
  | .manual f, el => f el

/-- The href extraction of src/parse.rs lines 165-171
(`call_with_css_selector_override`): for a CSS selector, the first match's
`href` attribute, falling back to its rendered text. -/
def QueryMethod.callHref : QueryMethod → Node → RustRes (List Nat)
  | .none, _ => .ok []
  | .cssSelector sel, el =>
    .ok (((select sel el).head?.map
      (fun n => (attrOf n (bs "href")).getD (Node.textContent n))).getD [])
  | .manual f, el => f el

/-- The result loop of src/parse.rs `parse_html_response_with_opts` lines
163-196: per matched element, extract title, href and description, skip the
candidate when description and title are both empty or when the description
alone is empty, otherwise normalize the URL and append the result.
`norm` is the external URL normalizer `crate::urls::normalize_url`. -/
def runResults (norm : List Nat → List Nat) (tq hq dq : QueryMethod) :
    List Node → RustRes (List EngineSearchResult)
  | [] => .ok []
  | el :: rest =>
    match tq.call el with
    | .panicked => .panicked
    | .err e => .err e
    | .ok title =>
      match hq.callHref el with
      | .panicked => .panicked
      | .err e => .err e
      | .ok url =>
        match dq.call el with
        | .panicked => .panicked
        | .err e => .err e
        | .ok description =>
          if description = [] ∧ title = [] then runResults norm tq hq dq rest
          else if description = [] then runResults norm tq hq dq rest
          else
            match runResults norm tq hq dq rest with
            | .panicked => .panicked
            | .err e => .err e
            | .ok tail =>
              .ok ({ url := norm url, title := title,
                     description := description } :: tail)

/-- src/parse.rs `parse_html_response_with_opts` lines 141-230: `body` is
the already-parsed DOM (HTML parsing is the external scraper crate, and is
total: malformed input still yields a tree).  A missing result selector is
the `expect` panic of line 160.  After the result loop, the optional
featured snippet is extracted from its selector's first match and dropped
when title and description are both empty. -/
def parse_html_response_with_opts (norm : List Nat → List Nat) (body : Node)
    (opts : ParseOpts) : RustRes EngineResponse :=
  match opts.result with
  | Option.none => .panicked
  | Option.some resultSel =>
    match runResults norm opts.title opts.href opts.description
        (select resultSel body) with
    | .panicked => .panicked
    | .err e => .err e
    | .ok search_results =>
      match opts.featured_snippet with
      | Option.none =>
        .ok ⟨search_results, Option.none, Option.none, Option.none⟩
      | Option.some fsSel =>
        match (select fsSel body).head? with
        | Option.none => .ok ⟨search_results, Option.none, Option.none,
            Option.none⟩
        | Option.some fsEl =>
          match opts.featured_snippet_title.call fsEl with
          | .panicked => .panicked
          | .err e => .err e
          | .ok t =>
            match opts.featured_snippet_href.call fsEl with
            | .panicked => .panicked
            | .err e => .err e
            | .ok u =>
              match opts.featured_snippet_description.call fsEl with
              | .panicked => .panicked
              | .err e => .err e
              | .ok d =>
                if d = [] ∧ t = [] then
                  .ok ⟨search_results, Option.none, Option.none, Option.none⟩
                else
                  .ok ⟨search_results, Option.some ⟨norm u, t, d⟩,
                    Option.none, Option.none⟩

/-! ## Bing adapter (src/engines/search/bing.rs) -/

/-- Modelled from the spec: the CSS selector `#b_results > li.b_algo`
matches `li` elements of class `b_algo`. -/
def bingResultSel : Sel := fun n =>
  match n with
  | .element tag _ classes _ => tag = bs "li" && classes.contains (bs "b_algo")
  | _ => false

/-- Modelled from the spec: the CSS selector `.b_algo h2 > a` matches `a`
elements below an `h2`. -/
def bingTitleSel : Sel := fun n =>
  match n with
  | .element tag _ _ _ => tag = bs "a"
  | _ => false

/-- Modelled from the spec: the CSS selector `a[href]`. -/
def hrefAttrSel : Sel := fun n =>
  match n with
  | .element tag _ _ _ => tag = bs "a" && (attrOf n (bs "href")).isSome
  | _ => false

/-- Modelled from the spec: the Bing description selector
`.b_caption > p, p.b_algoSlug, .b_caption .ipText`. -/
def bingDescSel : Sel := fun n =>
  match n with
  | .element tag _ classes _ =>
    tag = bs "p" || classes.contains (bs "ipText")
  | _ => false

/-- The description closure of Bing's `parse_response` (lines 112-137):
walk the children of the first description match, keeping text nodes and the
text of child elements that do not carry the `algoSlug_icon` class. -/
def bingDescConcat : List Node → List Nat
  | [] => []
  | n :: rest =>
    match n with
    | .text s => s ++ bingDescConcat rest
    | .element _ _ classes _ =>
      if classes.contains (bs "algoSlug_icon") then bingDescConcat rest
      else Node.textContent n ++ bingDescConcat rest
    | .comment => bingDescConcat rest

/-- The manual href rule of Bing's `parse_response` (lines 104-111): first
`a[href]` match's `href` attribute (empty when absent), passed through
`clean_url`. -/
def bing_href_method : QueryMethod := .manual fun el =>
  bingCleanUrl (((select hrefAttrSel el).head?.bind
    (fun n => attrOf n (bs "href"))).getD [])

/-- The manual description rule of Bing's `parse_response` (lines 112-137). -/
def bing_description_method : QueryMethod := .manual fun el =>
  .ok (bingDescConcat (((select bingDescSel el).head?.map
    Node.childNodes).getD []))

/-- The `ParseOpts` built by Bing's `parse_response` (lines 98-139). -/
def bingParseOpts : ParseOpts :=
  { result := Option.some bingResultSel
    title := .cssSelector bingTitleSel
    href := bing_href_method
    description := bing_description_method
    featured_snippet := Option.none
    featured_snippet_title := .none
    featured_snippet_href := .none
    featured_snippet_description := .none }

/-- Bing's `parse_response` (src/engines/search/bing.rs lines 98-139). -/
def bing_parse_response (norm : List Nat → List Nat) (body : Node) :
    RustRes EngineResponse :=
  parse_html_response_with_opts norm body bingParseOpts

/-- A Bing results page whose single result carries a tracking href with no
`u` query parameter: `<ol id="b_results"><li class="b_algo">
<a href="https://www.bing.com/ck/a?x=1">t</a></li></ol>`. -/
def bingBadDoc : Node :=
  .element (bs "html") [] [] [
    .element (bs "ol") [(bs "id", bs "b_results")] [] [
      .element (bs "li") [] [bs "b_algo"] [
        .element (bs "a") [(bs "href", bs "https://www.bing.com/ck/a?x=1")]
          [] [.text (bs "t")]]]]


/-! ## Bing image search (src/engines/search/bing.rs `parse_images_response`,
lines 185-256) -/

/-- src/engines.rs `EngineImageResult`. -/
structure EngineImageResult where
  page_url : List Nat
  image_url : List Nat
  title : List Nat
  width : Nat
  height : Nat
deriving DecidableEq, Repr

/-- src/engines.rs `EngineImagesResponse`. -/
structure EngineImagesResponse where
  image_results : List EngineImageResult
deriving DecidableEq, Repr

/-- A JSON value (the serde_json crate is an external collaborator; this
models its `Value` type). -/
inductive Json where
  | null
  | bool (b : Bool)
  | num (n : Int)
  | str (s : List Nat)
  | arr (xs : List Json)
  | obj (fields : List (List Nat × Json))

/-- `value.get(key).and_then(|v| v.as_str())`. -/
def Json.getStr (j : Json) (key : List Nat) : Option (List Nat) :=
  match j with
  | .obj fields =>
    match fields.find? (fun p => p.1 = key) with
    | Option.some (_, .str s) => Option.some s
    | _ => Option.none
  | _ => Option.none

/-- `value.as_array()`. -/
def Json.asArr : Json → Option (List Json)
  | .arr xs => Option.some xs
  | _ => Option.none

/-- `value.as_str()` at byte level. -/
def Json.asStr : Json → Option (List Nat)
  | .str s => Option.some s
  | _ => Option.none

/-- Modelled from the spec: the CSS selector `.imgpt`. -/
def imgContainerSel : Sel := fun n => n.hasClass (bs "imgpt")

/-- Modelled from the spec: the CSS selector `.iusc`. -/
def imgElSel : Sel := fun n => n.hasClass (bs "iusc")

/-- Remove Bing's match-marker characters U+E000/U+E001
(`.replace([c1, c2], "")`), at UTF-8 byte level. -/
def removeMarks : List Nat → List Nat
  | 238 :: 128 :: 128 :: rest => removeMarks rest
  | 238 :: 128 :: 129 :: rest => removeMarks rest
  | b :: rest => b :: removeMarks rest
  | [] => []

/-- Drop the leading Unicode-whitespace characters of a UTF-8 byte string
(Rust `char::is_whitespace`, the regex class `\s`). -/
def skipWs : List Nat → List Nat
  | [] => []
  | b :: rest =>
    if b = 9 ∨ b = 10 ∨ b = 11 ∨ b = 12 ∨ b = 13 ∨ b = 32 then skipWs rest
    else
      match b, rest with
      | 194, 133 :: r => skipWs r
      | 194, 160 :: r => skipWs r
      | 225, 154 :: 128 :: r => skipWs r
      | 226, 128 :: c :: r =>
        if (128 ≤ c ∧ c ≤ 138) ∨ c = 168 ∨ c = 169 ∨ c = 175 then skipWs r
        else b :: rest
      | 226, 129 :: 159 :: r => skipWs r
      | 227, 128 :: 128 :: r => skipWs r
      | _, _ => b :: rest

/-- Is the byte an ASCII digit? -/
def isDigitB (b : Nat) : Bool := 48 ≤ b && b ≤ 57

/-- Consume a multiplication sign `×` (UTF-8 `195 151`) or a letter `x`. -/
def matchCross : List Nat → Option (List Nat)
  | 120 :: r => Option.some r
  | 195 :: 151 :: r => Option.some r
  | _ => Option.none

/-- The first match of the size regex `(\d+)\s*[×x]\s*(\d+)` (the regex
crate is an external collaborator): returns the two captured digit runs of
the leftmost match. -/
def sizeCapture : List Nat → Option (List Nat × List Nat)
  | [] => Option.none
  | b :: rest =>
    if isDigitB b then
      match matchCross (skipWs ((b :: rest).dropWhile isDigitB)) with
      | Option.some r3 =>
        let d2 := (skipWs r3).takeWhile isDigitB
        if d2 = [] then sizeCapture rest
        else Option.some ((b :: rest).takeWhile isDigitB, d2)
      | Option.none => sizeCapture rest
    else sizeCapture rest

/-- Numeric value of a digit run. -/
def natOfDigits (l : List Nat) : Nat := l.foldl (fun acc b => acc * 10 + (b - 48)) 0

/-- `str::parse::<u64>().unwrap_or_default()` on a digit run: the value, or
0 when it overflows a u64. -/
def parseU64 (l : List Nat) : Nat :=
  if natOfDigits l < 18446744073709551616 then natOfDigits l else 0

/-- One iteration of the `parse_images_response` loop (lines 191-253) on a
single `.imgpt` container: a missing `.iusc` sub-element is a whole-call
error (`ok_or_else(..)?`), a missing `m` attribute is a skip (`continue`),
an unparsable `m` attribute is a whole-call error (`serde_json::from_str?`,
modelled by `jparse` returning `none`), and a caption whose text is all
whitespace or does not match the size regex is a skip. -/
def processImgContainer (jparse : List Nat → Option Json) (c : Node) :
    Except String (Option EngineImageResult) :=
  match (select imgElSel c).head? with
  | Option.none => .error "no image element found"
  | Option.some imgEl =>
    match attrOf imgEl (bs "m") with
    | Option.none => .ok Option.none
    | Option.some data =>
      match jparse data with
      | Option.none => .error "json parse error"
      | Option.some j =>
        let text := Node.textContent c
        if skipWs text = [] then .ok Option.none
        else
          match sizeCapture text with
          | Option.some (d1, d2) =>
            .ok (Option.some
              { page_url := (Json.getStr j (bs "purl")).getD []
                image_url := (Json.getStr j (bs "murl")).getD []
                title := removeMarks ((Json.getStr j (bs "t")).getD [])
                width := parseU64 d1
                height := parseU64 d2 })
          | Option.none => .ok Option.none

/-- The container loop of `parse_images_response`. -/
def runImgContainers (jparse : List Nat → Option Json) :
    List Node → Except String (List EngineImageResult)
  | [] => .ok []
  | c :: rest =>
    match processImgContainer jparse c with
    | .error e => .error e
    | .ok Option.none => runImgContainers jparse rest
    | .ok (Option.some r) =>
      match runImgContainers jparse rest with
      | .error e => .error e
      | .ok tail => .ok (r :: tail)

/-- Bing's `parse_images_response` (lines 185-256).  `jparse` is the
external serde_json parser applied to the `m` attribute text. -/
def bing_parse_images_response (jparse : List Nat → Option Json)
    (body : Node) : Except String EngineImagesResponse :=
  match runImgContainers jparse (select imgContainerSel body) with
  | .error e => .error e
  | .ok rs => .ok ⟨rs⟩

/-! ## Google adapter (src/engines/search/google.rs) -/

/-- An outbound request descriptor: method is always GET here, so only the
base URL and its query parameters are kept (the url crate's
`parse_with_params` is an external collaborator). -/
structure EngineRequest where
  url_base : String
  params : List (String × String)
deriving DecidableEq, Repr

/-- The process-wide `CURRENT_RANDOM_CHARACTERS` slot: the cached random
string and the instant it was set. -/
structure ArcState where
  chars : String
  lastSet : Nat
deriving DecidableEq, Repr

/-- The `async` value built from a cached random string (lines 81-87):
`arc_id:srp_<chars>_<skip>,use_ac:true,_fmt:prog` with
`skip = 100 + page_number * 10` and `page_number = 1`. -/
def arcToken (chars : String) : String :=
  ("arc_id:srp_" ++ chars ++ "_" ++ toString (100 + 1 * 10)) ++ "," ++
    "use_ac:true" ++ "," ++ "_fmt:prog"

/-- `generate_async_value` (lines 65-88) as a state transformer: `fresh` is
the randomly generated replacement string (`generate_new_arc_id_random`),
`now` the current instant in seconds.  The cached pair is read first; when
more than an hour has elapsed the slot is overwritten with `(fresh, now)`;
the returned token is built from the value that was read, so the refreshing
call itself still returns the old token. -/
def generate_async_value (fresh : String) (now : Nat) (st : ArcState) :
    String × ArcState :=
  let rc := st.chars
  let st2 := if now - st.lastSet > 60 * 60 then ArcState.mk fresh now else st
  (arcToken rc, st2)

/-- Google's `request` (lines 46-63): the search URL with its fixed
parameters and the rotating `async` token. -/
def google_request (query fresh : String) (now : Nat) (st : ArcState) :
    EngineRequest × ArcState :=
  match generate_async_value fresh now st with
  | (asyncv, st2) =>
    ({ url_base := "https://www.google.com/search"
       params := [("q", query), ("nfpr", "1"), ("filter", "0"),
         ("start", "0"), ("asearch", "arc"), ("async", asyncv)] }, st2)

/-- Google's `parse_autocomplete_response` (lines 188-200): the body must
parse as a JSON array (`serde_json::from_str::<Vec<Value>>?` — a non-array
or invalid body is an error); the second element (null-defaulted when
absent) is read as an array (empty-defaulted), and each entry as a string
(empty-defaulted).  The input is the parsed JSON document. -/
def google_parse_autocomplete_response (body : Json) :
    Except String (List (List Nat)) :=
  match body with
  | .arr xs =>
    .ok (((Json.asArr (xs.getD 1 .null)).getD []).map
      (fun v => (Json.asStr v).getD []))
  | _ => .error "invalid type: not a sequence"

/-! ## Marginalia adapter (src/engines/search/marginalia.rs) -/

/-- Rust `char::is_whitespace` (the Unicode White_Space property). -/
def rustIsWs (c : Char) : Bool :=
  c.toNat = 9 ∨ c.toNat = 10 ∨ c.toNat = 11 ∨ c.toNat = 12 ∨ c.toNat = 13 ∨
    c.toNat = 32 ∨ c.toNat = 133 ∨ c.toNat = 160 ∨ c.toNat = 5760 ∨
    (8192 ≤ c.toNat ∧ c.toNat ≤ 8202) ∨ c.toNat = 8232 ∨ c.toNat = 8233 ∨
    c.toNat = 8239 ∨ c.toNat = 8287 ∨ c.toNat = 12288

/-- `char::is_ascii_alphanumeric`. -/
def isAsciiAlnum (c : Char) : Bool :=
  (48 ≤ c.toNat ∧ c.toNat ≤ 57) ∨ (65 ≤ c.toNat ∧ c.toNat ≤ 90) ∨
    (97 ≤ c.toNat ∧ c.toNat ≤ 122)

/-- Word counter: number of maximal non-whitespace runs
(`split_whitespace().count()`). -/
def countWordsAux : List Char → Bool → Nat
  | [], _ => 0
  | c :: rest, inWord =>
    if rustIsWs c then countWordsAux rest false
    else (if inWord then 0 else 1) + countWordsAux rest true

/-- `query.split_whitespace().count()`. -/
def splitWhitespaceCount (s : String) : Nat := countWordsAux s.toList false

/-- src/engines/search/marginalia.rs `MarginaliaArgs`. -/
structure MarginaliaArgs where
  profile : String
  js : String
  adtech : String
deriving DecidableEq, Repr

/-- Marginalia's `request` (lines 30-61): queries of more than three
whitespace-separated words, or containing a character that is neither
ASCII-alphanumeric nor a space, are declined (`RequestResponse::None`,
modelled as `Option.none`); a configuration that fails to deserialize
(modelled as `config = none`) is also declined; otherwise the search URL is
built with the query and the configured profile/js/adtech arguments. -/
def marginalia_request (query : String) (config : Option MarginaliaArgs) :
    Option EngineRequest :=
  if splitWhitespaceCount query > 3 ∨
      ¬ (query.toList.all (fun c => isAsciiAlnum c || c = ' ') = true) then
    Option.none
  else
    match config with
    | Option.none => Option.none
    | Option.some args =>
      Option.some { url_base := "https://old-search.marginalia.nu/search"
                    params := [("query", query), ("profile", args.profile),
                      ("js", args.js), ("adtech", args.adtech)] }

/-- A one-result Bing-like page used as the concrete witness input. -/
def simpleDoc : Node :=
  .element (bs "html") [] [] [
    .element (bs "li") [] [bs "b_algo"] [
      .element (bs "a") [(bs "href", bs "https://example.com/")] []
        [.text (bs "Example")],
      .element (bs "p") [] [] [.text (bs "a description")]]]

/-- A result element with an empty title and a non-empty description. -/
def titlelessDoc : Node :=
  .element (bs "html") [] [] [
    .element (bs "li") [] [bs "b_algo"] [
      .element (bs "a") [(bs "href", bs "https://example.com/x")] [] [],
      .element (bs "p") [] [] [.text (bs "desc only")]]]

/-- The result element inside `titlelessDoc`. -/
def titlelessEl : Node :=
  .element (bs "li") [] [bs "b_algo"] [
    .element (bs "a") [(bs "href", bs "https://example.com/x")] [] [],
    .element (bs "p") [] [] [.text (bs "desc only")]]

/-- A Bing image container with an `.iusc` element, an `m` attribute and a
size caption. -/
def goodImgContainer : Node :=
  .element (bs "div") [] [bs "imgpt"] [
    .element (bs "a") [(bs "m", bs "{}")] [bs "iusc"] [],
    .element (bs "div") [] [] [.text (bs "1200 x 1600 - jpegWikipedia")]]

/-- A Bing image container with no `.iusc` sub-element. -/
def badImgContainer : Node :=
  .element (bs "div") [] [bs "imgpt"] [
    .element (bs "div") [] [] [.text (bs "800 x 600")]]

/-- A Bing image container whose `.iusc` element has no `m` attribute. -/
def noMImgContainer : Node :=
  .element (bs "div") [] [bs "imgpt"] [
    .element (bs "a") [] [bs "iusc"] [],
    .element (bs "div") [] [] [.text (bs "640 x 480")]]

/-- The `.iusc` element of `noMImgContainer`. -/
def noMImgEl : Node := .element (bs "a") [] [bs "iusc"] []

/-- An image results page whose first container lacks the `.iusc`
sub-element and whose second container is fully well-formed. -/
def imgBadDoc : Node :=
  .element (bs "html") [] [] [badImgContainer, goodImgContainer]

/-- An image results page holding only the well-formed container. -/
def imgGoodDoc : Node := .element (bs "html") [] [] [goodImgContainer]

/-- A concrete external JSON parse capability that parses the literal
body `\x7b\x7d` (an empty JSON object) and nothing else. -/
def jparse0 : List Nat → Option Json := fun s =>
  if s = [123, 125] then Option.some (Json.obj []) else Option.none

/-- A well-formed Marginalia configuration. -/
def margCfg : MarginaliaArgs :=
  { profile := "default", js := "default", adtech := "default" }


/-- Decidable equality for `Except` results. -/
def exceptDecEq {e a : Type} [DecidableEq e] [DecidableEq a] :
    DecidableEq (Except e a)
  | .error x, .error y =>
    if h : x = y then isTrue (by rw [h]) else isFalse (by simp [h])
  | .error _, .ok _ => isFalse (by simp)
  | .ok _, .error _ => isFalse (by simp)
  | .ok x, .ok y =>
    if h : x = y then isTrue (by rw [h]) else isFalse (by simp [h])

instance {e a : Type} [DecidableEq e] [DecidableEq a] :
    DecidableEq (Except e a) := exceptDecEq

/-! ## Helper lemmas -/

theorem list_takeWhile_all {p : Nat → Bool} :
    ∀ l : List Nat, (∀ b ∈ l, p b = true) → l.takeWhile p = l := by
  intro l h
  induction l with
  | nil => rfl
  | cons b rest ih =>
    simp only [List.takeWhile_cons, h b (by simp)]
    simp [ih fun x hx => h x (by simp [hx])]

theorem afterFirst_append {t : Nat} :
    ∀ l r : List Nat, (∀ b ∈ l, b ≠ t) → afterFirst t (l ++ t :: r) = r := by
  intro l r h
  induction l with
  | nil => simp [afterFirst]
  | cons b rest ih =>
    have hb : b ≠ t := h b (by simp)
    rw [List.cons_append, afterFirst, if_neg hb]
    exact ih fun x hx => h x (by simp [hx])

theorem splitSep_no_sep {sep : Nat} :
    ∀ l : List Nat, (∀ b ∈ l, b ≠ sep) → splitSep sep l = [l] := by
  intro l h
  induction l with
  | nil => rfl
  | cons b rest ih =>
    simp only [splitSep, if_neg (h b (by simp))]
    rw [ih fun x hx => h x (by simp [hx])]

theorem pctDecode_cons_ne (b : Nat) (rest : List Nat) (h37 : b ≠ 37)
    (h43 : b ≠ 43) : pctDecode (b :: rest) = b :: pctDecode rest := by
  match rest with
  | [] => simp [pctDecode, h37, h43]
  | [d1] => simp [pctDecode, h37, h43]
  | d1 :: d2 :: r2 => simp [pctDecode, h37, h43]

theorem pctDecode_id :
    ∀ l : List Nat, (∀ b ∈ l, b ≠ 37 ∧ b ≠ 43) → pctDecode l = l := by
  intro l h
  induction l with
  | nil => simp [pctDecode]
  | cons b rest ih =>
    have hb := h b (by simp)
    rw [pctDecode_cons_ne b rest hb.1 hb.2]
    rw [ih fun x hx => h x (by simp [hx])]

theorem b64Idx_chr : ∀ v : Nat, v < 64 → b64Idx (b64Chr v) = some v := by
  decide

theorem b64Chr_mem : ∀ v : Nat, v < 64 → b64Chr v ∈ b64Alpha := by
  decide

theorem b64Alpha_bytes :
    ∀ c ∈ b64Alpha, c ≠ 35 ∧ c ≠ 38 ∧ c ≠ 61 ∧ c ≠ 37 ∧ c ≠ 43 ∧ c ≠ 63 ∧
      isContByte c = false := by
  decide

theorem b64Encode_mem :
    ∀ l : List Nat, (∀ b ∈ l, b < 256) → ∀ c ∈ b64Encode l, c ∈ b64Alpha := by
  intro l
  induction l using b64Encode.induct with
  | case1 => intro _ c hc; simp [b64Encode] at hc
  | case2 b1 =>
    intro h c hc
    have hb1 : b1 < 256 := h b1 (by simp)
    simp only [b64Encode, List.mem_cons, List.mem_singleton] at hc
    rcases hc with rfl | hc
    · exact b64Chr_mem _ (by omega)
    · simp at hc; subst hc; exact b64Chr_mem _ (by omega)
  | case3 b1 b2 =>
    intro h c hc
    have hb1 : b1 < 256 := h b1 (by simp)
    have hb2 : b2 < 256 := h b2 (by simp)
    simp only [b64Encode, List.mem_cons, List.mem_singleton] at hc
    rcases hc with rfl | rfl | hc
    · exact b64Chr_mem _ (by omega)
    · exact b64Chr_mem _ (by omega)
    · simp at hc; subst hc; exact b64Chr_mem _ (by omega)
  | case4 b1 b2 b3 rest ih =>
    intro h c hc
    have hb1 : b1 < 256 := h b1 (by simp)
    have hb2 : b2 < 256 := h b2 (by simp)
    have hb3 : b3 < 256 := h b3 (by simp)
    simp only [b64Encode, List.mem_cons] at hc
    rcases hc with rfl | rfl | rfl | rfl | hc
    · exact b64Chr_mem _ (by omega)
    · exact b64Chr_mem _ (by omega)
    · exact b64Chr_mem _ (by omega)
    · exact b64Chr_mem _ (by omega)
    · exact ih (fun x hx => h x (by simp [hx])) c hc

theorem b64Decode_encode :
    ∀ l : List Nat, (∀ b ∈ l, b < 256) → b64Decode (b64Encode l) = some l := by
  intro l
  induction l using b64Encode.induct with
  | case1 => intro _; rfl
  | case2 b1 =>
    intro h
    have hb1 : b1 < 256 := h b1 (by simp)
    rw [b64Encode]
    rw [b64Decode]
    rw [b64Idx_chr _ (by omega), b64Idx_chr _ (by omega)]
    simp only [if_pos (by omega : b1 % 4 * 16 % 16 = 0)]
    congr 1
    congr 1
    omega
  | case3 b1 b2 =>
    intro h
    have hb1 : b1 < 256 := h b1 (by simp)
    have hb2 : b2 < 256 := h b2 (by simp)
    rw [b64Encode]
    rw [b64Decode]
    rw [b64Idx_chr _ (by omega), b64Idx_chr _ (by omega),
      b64Idx_chr _ (by omega)]
    simp only [if_pos (by omega : b2 % 16 * 4 % 4 = 0)]
    congr 1
    have e1 : b1 / 4 * 4 + (b1 % 4 * 16 + b2 / 16) / 16 = b1 := by omega
    have e2 : (b1 % 4 * 16 + b2 / 16) % 16 * 16 + b2 % 16 * 4 / 4 = b2 := by
      omega
    rw [e1, e2]
  | case4 b1 b2 b3 rest ih =>
    intro h
    have hb1 : b1 < 256 := h b1 (by simp)
    have hb2 : b2 < 256 := h b2 (by simp)
    have hb3 : b3 < 256 := h b3 (by simp)
    have ihr := ih fun x hx => h x (by simp [hx])
    have e1 : b1 / 4 * 4 + (b1 % 4 * 16 + b2 / 16) / 16 = b1 := by omega
    have e2 : (b1 % 4 * 16 + b2 / 16) % 16 * 16 +
        (b2 % 16 * 4 + b3 / 64) / 4 = b2 := by omega
    have e3 : (b2 % 16 * 4 + b3 / 64) % 4 * 64 + b3 % 64 = b3 := by omega
    rw [b64Encode]
    rw [b64Decode]
    rw [b64Idx_chr _ (by omega), b64Idx_chr _ (by omega),
      b64Idx_chr _ (by omega), b64Idx_chr _ (by omega)]
    simp only [ihr, e1, e2, e3]

theorem utf8Lossy_of_valid :
    ∀ l : List Nat, validUtf8 l = true → utf8Lossy l = l := by
  intro l
  induction l using utf8Lossy.induct <;>
    (intro hv
     try rw [validUtf8] at hv
     try rw [utf8Lossy]
     try simp_all
     try (split_ifs at hv ⊢ <;> simp_all))

theorem isPrefixOf_append_self :
    ∀ l r : List Nat, l.isPrefixOf (l ++ r) = true := by
  intro l r
  induction l with
  | nil => simp [List.isPrefixOf]
  | cons b rest ih => simp [List.isPrefixOf, ih]

theorem strSliceFrom2_cons2 :
    ∀ (a b : Nat) (l : List Nat), (∀ c ∈ l, isContByte c = false) →
      strSliceFrom2 (a :: b :: l) = some l := by
  intro a b l h
  cases l with
  | nil => simp [strSliceFrom2]
  | cons c rest => simp [strSliceFrom2, h c (by simp)]

/-- C7: decoding a Bing tracking link whose `u` parameter is two marker
characters followed by the URL-safe unpadded base64 encoding of a
destination string `s` (a well-formed UTF-8 byte sequence) recovers `s`
byte-for-byte, and a tracking link whose base64 payload fails to decode
yields the empty string rather than an error. -/
theorem bing_clean_url_roundtrip :
    ∀ s : List Nat, (∀ b ∈ s, b < 256) → validUtf8 s = true →
      bingCleanUrl (bs "https://www.bing.com/ck/a?u=a1" ++ b64Encode s) =
        .ok s ∧
      bingCleanUrl (bs "https://www.bing.com/ck/a?u=a1!") = .ok [] := by
  intro s hb hs
  have henc : ∀ c ∈ b64Encode s, c ∈ b64Alpha := b64Encode_mem s hb
  constructor
  · have hurl : bs "https://www.bing.com/ck/a?u=a1" ++ b64Encode s =
        bingTrackMark ++ (bs "u=a1" ++ b64Encode s) := by
      rw [(by decide :
        bs "https://www.bing.com/ck/a?u=a1" = bingTrackMark ++ bs "u=a1")]
      rw [List.append_assoc]
    have hpre : bingTrackMark.isPrefixOf
        (bingTrackMark ++ (bs "u=a1" ++ b64Encode s)) = true :=
      isPrefixOf_append_self _ _
    have hq : urlQuery (bingTrackMark ++ (bs "u=a1" ++ b64Encode s)) =
        bs "u=a1" ++ b64Encode s := by
      unfold urlQuery
      rw [(by decide : bingTrackMark = bs "https://www.bing.com/ck/a" ++ [63])]
      rw [List.append_assoc, List.singleton_append]
      rw [afterFirst_append _ _ (by decide)]
      refine list_takeWhile_all _ ?_
      have hfix : ∀ b ∈ bs "u=a1", (decide (b ≠ 35) : Bool) = true := by decide
      intro b hbm
      rcases List.mem_append.1 hbm with h | h
      · exact hfix b h
      · simp [(b64Alpha_bytes b (henc b h)).1]
    have hchunk : bs "u=a1" ++ b64Encode s =
        117 :: 61 :: 97 :: 49 :: b64Encode s := by
      rw [(by decide : bs "u=a1" = [117, 61, 97, 49])]
      rfl
    have hfq : findQueryParam (bs "u") (bs "u=a1" ++ b64Encode s) =
        some (97 :: 49 :: b64Encode s) := by
      unfold findQueryParam
      rw [splitSep_no_sep _ ?nosep]
      case nosep =>
        have hfix : ∀ b ∈ bs "u=a1", b ≠ 38 := by decide
        intro b hbm
        rcases List.mem_append.1 hbm with h | h
        · exact hfix b h
        · exact (b64Alpha_bytes b (henc b h)).2.1
      rw [hchunk]
      simp only [List.filter, List.findSome?]
      have hkey : chunkKey (117 :: 61 :: 97 :: 49 :: b64Encode s) = [117] := by
        simp [chunkKey, List.takeWhile]
      have hval : chunkVal (117 :: 61 :: 97 :: 49 :: b64Encode s) =
          97 :: 49 :: b64Encode s := by
        simp [chunkVal, List.contains, List.elem, afterFirst]
      have hpct : pctDecode (97 :: 49 :: b64Encode s) =
          97 :: 49 :: b64Encode s := by
        refine pctDecode_id _ ?_
        intro b hbm
        rcases List.mem_cons.1 hbm with rfl | hbm
        · decide
        rcases List.mem_cons.1 hbm with rfl | hbm
        · decide
        · exact ⟨(b64Alpha_bytes b (henc b hbm)).2.2.2.1,
            (b64Alpha_bytes b (henc b hbm)).2.2.2.2.1⟩
      simp [hkey, hval, hpct, pctDecode, bs]
    rw [hurl]
    unfold bingCleanUrl
    rw [if_pos hpre, hq, hfq]
    simp only [Option.getD_some]
    rw [strSliceFrom2_cons2 _ _ _
      (fun c hc => (b64Alpha_bytes c (henc c hc)).2.2.2.2.2.2)]
    simp only [b64Decode_encode s hb, Option.getD_some,
      utf8Lossy_of_valid s hs]
  · simp [bingCleanUrl, (by decide : bingTrackMark.isPrefixOf
      (bs "https://www.bing.com/ck/a?u=a1!") = true),
      (by decide : urlQuery (bs "https://www.bing.com/ck/a?u=a1!") =
        bs "u=a1!"),
      (by decide : findQueryParam (bs "u") (bs "u=a1!") = some (bs "a1!")),
      (by decide : strSliceFrom2 (bs "a1!") = some [33]),
      b64Decode, b64Idx, utf8Lossy]

theorem bing_clean_url_roundtrip_witness :
    (∀ b ∈ bs "https://example.com/page", b < 256) ∧
    validUtf8 (bs "https://example.com/page") = true ∧
    bingCleanUrl (bs "https://www.bing.com/ck/a?u=a1" ++
        b64Encode (bs "https://example.com/page")) =
      .ok (bs "https://example.com/page") := by
  refine ⟨by decide, by decide, ?_⟩
  exact (bing_clean_url_roundtrip (bs "https://example.com/page")
    (by decide) (by decide)).1

/-- C8: both URL cleaners leave a non-tracking URL unchanged, so applying a
cleaner twice to an already-clean URL gives the same result as applying it
once. -/
theorem clean_url_noop_on_clean :
    ∀ u : List Nat,
      (bingTrackMark.isPrefixOf u = false → bingCleanUrl u = .ok u) ∧
      (googleTrackMark.isPrefixOf u = false → googleCleanUrl u = .ok u) := by
  intro u
  constructor
  · intro h
    unfold bingCleanUrl
    rw [if_neg (by simp [h])]
  · intro h
    unfold googleCleanUrl
    rw [if_neg (by simp [h])]

theorem clean_url_noop_on_clean_witness :
    bingTrackMark.isPrefixOf (bs "https://example.com/") = false ∧
    googleTrackMark.isPrefixOf (bs "https://example.com/") = false ∧
    bingCleanUrl (bs "https://example.com/") = .ok (bs "https://example.com/") ∧
    googleCleanUrl (bs "https://example.com/") =
      .ok (bs "https://example.com/") := by
  refine ⟨by decide, by decide, ?_, ?_⟩
  · exact (clean_url_noop_on_clean (bs "https://example.com/")).1 (by decide)
  · exact (clean_url_noop_on_clean (bs "https://example.com/")).2 (by decide)

/-- C1: refuted — Bing's `parse_response` panics (it does not return) on a
results page whose result element carries a tracking href
`https://www.bing.com/ck/a?x=1` with no `u` query parameter: `clean_url`
evaluates `&u[2..]` on the empty default value, a string-index panic.  The
spec's "never throws/panics" is the stated intent (§7 treats per-candidate
defects as soft), so this is a code bug, not a spec error. -/
theorem bing_parse_response_panics :
    bing_parse_response (fun u => u) bingBadDoc = .panicked ∧
    bingCleanUrl (bs "https://www.bing.com/ck/a?x=1") = .panicked := by
  constructor
  · decide
  · decide

theorem runResults_ok_desc :
    ∀ (norm : List Nat → List Nat) (tq hq dq : QueryMethod)
      (els : List Node) (l : List EngineSearchResult),
      runResults norm tq hq dq els = .ok l →
      ∀ r ∈ l, r.description ≠ [] := by
  intro norm tq hq dq els
  induction els with
  | nil =>
    intro l h r hr
    rw [runResults] at h
    cases h
    simp at hr
  | cons el rest ih =>
    intro l h r hr
    rw [runResults] at h
    cases h1 : tq.call el with
    | panicked => rw [h1] at h; cases h
    | err e => rw [h1] at h; cases h
    | ok title =>
      rw [h1] at h
      cases h2 : QueryMethod.callHref hq el with
      | panicked => rw [h2] at h; cases h
      | err e => rw [h2] at h; cases h
      | ok url =>
        rw [h2] at h
        cases h3 : dq.call el with
        | panicked => rw [h3] at h; cases h
        | err e => rw [h3] at h; cases h
        | ok description =>
          rw [h3] at h
          simp only at h
          by_cases hcase1 : description = [] ∧ title = []
          · rw [if_pos hcase1] at h
            exact ih l h r hr
          · rw [if_neg hcase1] at h
            by_cases hcase2 : description = []
            · rw [if_pos hcase2] at h
              exact ih l h r hr
            · rw [if_neg hcase2] at h
              cases h4 : runResults norm tq hq dq rest with
              | panicked => rw [h4] at h; cases h
              | err e => rw [h4] at h; cases h
              | ok tail =>
                rw [h4] at h
                cases h
                rcases List.mem_cons.1 hr with rfl | hr
                · exact hcase2
                · exact ih tail h4 r hr

/-- C2: every `EngineSearchResult` in the `search_results` of an `Ok`
response of the generic extraction engine has a non-empty description: a
candidate whose extracted description is empty is never appended, whatever
its title and href. -/
theorem parse_results_description_nonempty :
    ∀ (norm : List Nat → List Nat) (body : Node) (opts : ParseOpts)
      (resp : EngineResponse),
      parse_html_response_with_opts norm body opts = .ok resp →
      ∀ r ∈ resp.search_results, r.description ≠ [] := by
  intro norm body opts resp h r hr
  rw [parse_html_response_with_opts] at h
  cases hres : opts.result with
  | none => rw [hres] at h; simp only at h; cases h
  | some resultSel =>
    rw [hres] at h
    simp only at h
    cases h1 : runResults norm opts.title opts.href opts.description
        (select resultSel body) with
    | panicked => rw [h1] at h; simp only at h; cases h
    | err e => rw [h1] at h; simp only at h; cases h
    | ok search_results =>
      rw [h1] at h
      simp only at h
      have hall := runResults_ok_desc norm opts.title opts.href
        opts.description (select resultSel body) search_results h1
      have hsr : resp.search_results = search_results := by
        cases hfs : opts.featured_snippet with
        | none => rw [hfs] at h; simp only at h; cases h; rfl
        | some fsSel =>
          rw [hfs] at h
          simp only at h
          cases hhead : (select fsSel body).head? with
          | none => rw [hhead] at h; simp only at h; cases h; rfl
          | some fsEl =>
            rw [hhead] at h
            simp only at h
            cases h2 : opts.featured_snippet_title.call fsEl with
            | panicked => rw [h2] at h; simp only at h; cases h
            | err e => rw [h2] at h; simp only at h; cases h
            | ok t =>
              rw [h2] at h
              simp only at h
              cases h3 : opts.featured_snippet_href.call fsEl with
              | panicked => rw [h3] at h; simp only at h; cases h
              | err e => rw [h3] at h; simp only at h; cases h
              | ok u =>
                rw [h3] at h
                simp only at h
                cases h4 : opts.featured_snippet_description.call fsEl with
                | panicked => rw [h4] at h; simp only at h; cases h
                | err e => rw [h4] at h; simp only at h; cases h
                | ok d =>
                  rw [h4] at h
                  simp only at h
                  by_cases hc : d = [] ∧ t = []
                  · rw [if_pos hc] at h; cases h; rfl
                  · rw [if_neg hc] at h; cases h; rfl
      rw [hsr] at hr
      exact hall r hr


theorem parse_results_description_nonempty_witness :
    parse_html_response_with_opts (fun u => u) simpleDoc bingParseOpts =
      .ok ⟨[⟨bs "https://example.com/", bs "Example", bs "a description"⟩],
        Option.none, Option.none, Option.none⟩ ∧
    ∀ r ∈ ([⟨bs "https://example.com/", bs "Example",
        bs "a description"⟩] : List EngineSearchResult),
      EngineSearchResult.description r ≠ [] := by
  constructor
  · decide
  · exact parse_results_description_nonempty (fun u => u) simpleDoc
      bingParseOpts ⟨[⟨bs "https://example.com/", bs "Example",
        bs "a description"⟩], Option.none, Option.none, Option.none⟩
      (by decide)

theorem runResults_emits :
    ∀ (norm : List Nat → List Nat) (tq hq dq : QueryMethod)
      (els : List Node) (l : List EngineSearchResult),
      runResults norm tq hq dq els = .ok l →
      ∀ el ∈ els, ∀ u d, tq.call el = .ok [] →
        QueryMethod.callHref hq el = .ok u → dq.call el = .ok d → d ≠ [] →
        ({ url := norm u, title := [], description := d } :
          EngineSearchResult) ∈ l := by
  intro norm tq hq dq els
  induction els with
  | nil =>
    intro l h el hel
    simp at hel
  | cons el0 rest ih =>
    intro l h el hel u d ht hh hd hdne
    rw [runResults] at h
    rcases List.mem_cons.1 hel with rfl | hel
    · rw [ht] at h
      simp only at h
      rw [hh] at h
      simp only at h
      rw [hd] at h
      simp only at h
      rw [if_neg (by simp [hdne]), if_neg hdne] at h
      cases h4 : runResults norm tq hq dq rest with
      | panicked => rw [h4] at h; simp only at h; cases h
      | err e => rw [h4] at h; simp only at h; cases h
      | ok tail =>
        rw [h4] at h
        simp only at h
        cases h
        exact List.mem_cons_self _ _
    · cases h1 : tq.call el0 with
      | panicked => rw [h1] at h; simp only at h; cases h
      | err e => rw [h1] at h; simp only at h; cases h
      | ok title =>
        rw [h1] at h
        simp only at h
        cases h2 : QueryMethod.callHref hq el0 with
        | panicked => rw [h2] at h; simp only at h; cases h
        | err e => rw [h2] at h; simp only at h; cases h
        | ok url =>
          rw [h2] at h
          simp only at h
          cases h3 : dq.call el0 with
          | panicked => rw [h3] at h; simp only at h; cases h
          | err e => rw [h3] at h; simp only at h; cases h
          | ok description =>
            rw [h3] at h
            simp only at h
            by_cases hc1 : description = [] ∧ title = []
            · rw [if_pos hc1] at h
              exact ih l h el hel u d ht hh hd hdne
            · rw [if_neg hc1] at h
              by_cases hc2 : description = []
              · rw [if_pos hc2] at h
                exact ih l h el hel u d ht hh hd hdne
              · rw [if_neg hc2] at h
                cases h4 : runResults norm tq hq dq rest with
                | panicked => rw [h4] at h; simp only at h; cases h
                | err e => rw [h4] at h; simp only at h; cases h
                | ok tail =>
                  rw [h4] at h
                  simp only at h
                  cases h
                  exact List.mem_cons_of_mem _
                    (ih tail h4 el hel u d ht hh hd hdne)

theorem parse_ok_search_results :
    ∀ (norm : List Nat → List Nat) (body : Node) (opts : ParseOpts)
      (resp : EngineResponse) (resultSel : Sel),
      opts.result = Option.some resultSel →
      parse_html_response_with_opts norm body opts = .ok resp →
      runResults norm opts.title opts.href opts.description
        (select resultSel body) = .ok resp.search_results := by
  intro norm body opts resp resultSel hres h
  rw [parse_html_response_with_opts] at h
  rw [hres] at h
  simp only at h
  cases h1 : runResults norm opts.title opts.href opts.description
      (select resultSel body) with
  | panicked => rw [h1] at h; simp only at h; cases h
  | err e => rw [h1] at h; simp only at h; cases h
  | ok search_results =>
    rw [h1] at h
    simp only at h
    congr 1
    cases hfs : opts.featured_snippet with
    | none => rw [hfs] at h; simp only at h; cases h; rfl
    | some fsSel =>
      rw [hfs] at h
      simp only at h
      cases hhead : (select fsSel body).head? with
      | none => rw [hhead] at h; simp only at h; cases h; rfl
      | some fsEl =>
        rw [hhead] at h
        simp only at h
        cases h2 : opts.featured_snippet_title.call fsEl with
        | panicked => rw [h2] at h; simp only at h; cases h
        | err e => rw [h2] at h; simp only at h; cases h
        | ok t =>
          rw [h2] at h
          simp only at h
          cases h3 : opts.featured_snippet_href.call fsEl with
          | panicked => rw [h3] at h; simp only at h; cases h
          | err e => rw [h3] at h; simp only at h; cases h
          | ok u =>
            rw [h3] at h
            simp only at h
            cases h4 : opts.featured_snippet_description.call fsEl with
            | panicked => rw [h4] at h; simp only at h; cases h
            | err e => rw [h4] at h; simp only at h; cases h
            | ok d =>
              rw [h4] at h
              simp only at h
              by_cases hc : d = [] ∧ t = []
              · rw [if_pos hc] at h; cases h; rfl
              · rw [if_neg hc] at h; cases h; rfl

/-- C10: a candidate result element whose extracted description is non-empty
is emitted even when its extracted title is empty; the title of an emitted
`EngineSearchResult` may therefore be the empty string (only the description
is guaranteed non-empty). -/
theorem empty_title_still_emitted :
    ∀ (norm : List Nat → List Nat) (body : Node) (opts : ParseOpts)
      (resp : EngineResponse) (resultSel : Sel) (el : Node)
      (u d : List Nat),
      opts.result = Option.some resultSel →
      parse_html_response_with_opts norm body opts = .ok resp →
      el ∈ select resultSel body →
      opts.title.call el = .ok [] →
      QueryMethod.callHref opts.href el = .ok u →
      opts.description.call el = .ok d →
      d ≠ [] →
      ({ url := norm u, title := [], description := d } :
        EngineSearchResult) ∈ resp.search_results := by
  intro norm body opts resp resultSel el u d hres h hel ht hh hd hdne
  exact runResults_emits norm opts.title opts.href opts.description
    (select resultSel body) resp.search_results
    (parse_ok_search_results norm body opts resp resultSel hres h)
    el hel u d ht hh hd hdne



theorem empty_title_still_emitted_witness :
    ({ url := bs "https://example.com/x", title := [],
       description := bs "desc only" } : EngineSearchResult) ∈
      [({ url := bs "https://example.com/x", title := [],
          description := bs "desc only" } : EngineSearchResult)] := by
  refine empty_title_still_emitted (fun u => u) titlelessDoc bingParseOpts
    ⟨[⟨bs "https://example.com/x", [], bs "desc only"⟩],
      Option.none, Option.none, Option.none⟩
    bingResultSel titlelessEl (bs "https://example.com/x") (bs "desc only")
    rfl (by decide) ?_ (by decide) (by decide) (by decide) (by decide)
  rw [(by rfl : select bingResultSel titlelessDoc = [titlelessEl])]
  exact List.mem_singleton_self _

/-- C3 counterexample: a single image container missing the expected `.iusc`
sub-element does not get skipped — `parse_images_response` fails the whole
batch with `no image element found`, even though the remaining container
parses fine on its own. -/
theorem bing_images_batch_error :
    bing_parse_images_response jparse0 imgBadDoc =
      .error "no image element found" ∧
    bing_parse_images_response jparse0 imgGoodDoc =
      .ok ⟨[{ page_url := [], image_url := [], title := [],
              width := 1200, height := 1600 }]⟩ := by
  constructor
  · decide
  · decide

/-- C3 (amended): in Bing's `parse_images_response`, a container whose
`.iusc` element is missing its `m` attribute is skipped and the remaining
containers still contribute their results, but a container missing the
`.iusc` sub-element itself fails the whole call with an error. -/
theorem bing_images_skip_policy :
    ∀ (jparse : List Nat → Option Json) (c : Node) (rest : List Node),
      ((select imgElSel c).head? = Option.none →
        runImgContainers jparse (c :: rest) =
          .error "no image element found") ∧
      (∀ ie, (select imgElSel c).head? = Option.some ie →
        attrOf ie (bs "m") = Option.none →
        runImgContainers jparse (c :: rest) = runImgContainers jparse rest) := by
  intro jparse c rest
  constructor
  · intro h
    rw [runImgContainers, processImgContainer, h]
  · intro ie hie hm
    rw [runImgContainers, processImgContainer, hie]
    simp only
    rw [hm]

theorem bing_images_skip_policy_witness :
    runImgContainers jparse0 [noMImgContainer, goodImgContainer] =
      runImgContainers jparse0 [goodImgContainer] ∧
    runImgContainers jparse0 [badImgContainer, goodImgContainer] =
      .error "no image element found" := by
  constructor
  · exact (bing_images_skip_policy jparse0 noMImgContainer
      [goodImgContainer]).2 noMImgEl (by rfl) (by rfl)
  · exact (bing_images_skip_policy jparse0 badImgContainer
      [goodImgContainer]).1 (by rfl)

/-- C4 counterexample: two calls to `generate_async_value` made 100 seconds
apart (well under an hour) return different tokens, because the call that
crosses the one-hour refresh threshold still returns the token of the old
cached string while installing the fresh one for subsequent calls. -/
theorem google_async_token_differs_within_hour :
    (3800 : Nat) - 3700 < 60 * 60 ∧
    (generate_async_value "bbbbbbbbbbbbbbbbbbbbbbb" 3700
        ⟨"aaaaaaaaaaaaaaaaaaaaaaa", 0⟩).1 ≠
      (generate_async_value "ccccccccccccccccccccccc" 3800
        ((generate_async_value "bbbbbbbbbbbbbbbbbbbbbbb" 3700
          ⟨"aaaaaaaaaaaaaaaaaaaaaaa", 0⟩).2)).1 := by
  constructor
  · decide
  · decide

/-- C4 (amended): the `async` token is a function of the cached random
string alone.  A call made at most an hour after the cache timestamp leaves
the cache unchanged, and any subsequent call from that unchanged cache
returns the identical token; a call made more than an hour after the cache
timestamp installs the fresh string with the new timestamp but itself still
returns the token built from the old string; and two tokens built from
equal-length strings (the random strings always have 23 characters) are
equal exactly when the underlying strings are equal — so tokens straddling
a completed refresh differ whenever the fresh random string differs from
the old one. -/
theorem google_async_token_reuse :
    ∀ (st : ArcState) (f1 f2 : String) (t1 t2 : Nat),
      (t1 - st.lastSet ≤ 60 * 60 →
        (generate_async_value f1 t1 st).2 = st ∧
        (generate_async_value f2 t2 ((generate_async_value f1 t1 st).2)).1 =
          (generate_async_value f1 t1 st).1) ∧
      (t1 - st.lastSet > 60 * 60 →
        (generate_async_value f1 t1 st).2 = ArcState.mk f1 t1 ∧
        (generate_async_value f1 t1 st).1 = arcToken st.chars) ∧
      (∀ c1 c2 : String, c1.length = c2.length →
        (arcToken c1 = arcToken c2 ↔ c1 = c2)) := by
  intro st f1 f2 t1 t2
  refine ⟨?_, ?_, ?_⟩
  · intro h
    have hst : (generate_async_value f1 t1 st).2 = st := by
      simp [generate_async_value]
      omega
    refine ⟨hst, ?_⟩
    rw [hst]
    rfl
  · intro h
    constructor
    · simp [generate_async_value]
      omega
    · rfl
  · intro c1 c2 hlen
    constructor
    · intro h
      have hd := congrArg String.data h
      simp only [arcToken, String.data_append, List.append_assoc] at hd
      have h1 := List.append_cancel_left hd
      have h2 := List.append_inj_left h1 (hlen : c1.data.length = c2.data.length)
      exact String.ext h2
    · intro h
      rw [h]

theorem google_async_token_reuse_witness :
    ((generate_async_value "B" 100 ⟨"A", 0⟩).2 = (⟨"A", 0⟩ : ArcState) ∧
      (generate_async_value "C" 200
        ((generate_async_value "B" 100 ⟨"A", 0⟩).2)).1 =
        (generate_async_value "B" 100 ⟨"A", 0⟩).1) ∧
    ((generate_async_value "B" 4000 ⟨"A", 0⟩).2 = (⟨"B", 4000⟩ : ArcState) ∧
      (generate_async_value "B" 4000 ⟨"A", 0⟩).1 = arcToken "A") := by
  constructor
  · exact (google_async_token_reuse ⟨"A", 0⟩ "B" "C" 100 200).1 (by decide)
  · exact ((google_async_token_reuse ⟨"A", 0⟩ "B" "C" 4000 200).2.1
      (by decide))

/-- C5 counterexample: two calls to Google's `request` with the same query
yield different `EngineRequest`s when a token refresh happens between them
(the second call reads the fresh cached string), so request construction is
not deterministic in the query and configuration alone. -/
theorem google_request_differs_across_refresh :
    (google_request "rust" "bbbbbbbbbbbbbbbbbbbbbbb" 3700
        ⟨"aaaaaaaaaaaaaaaaaaaaaaa", 0⟩).1 ≠
      (google_request "rust" "ccccccccccccccccccccccc" 3800
        ((google_request "rust" "bbbbbbbbbbbbbbbbbbbbbbb" 3700
          ⟨"aaaaaaaaaaaaaaaaaaaaaaa", 0⟩).2)).1 := by
  decide

/-- C5 (amended): request construction is deterministic given the query,
the configuration and — for Google — the cached `async` random string: two
calls to Google's `request` with the same query that read the same cached
string build identical requests, whatever the clock reads and whatever
fresh replacement strings the generator supplies.  (The other adapters'
builders are pure functions of query and configuration by construction.) -/
theorem google_request_deterministic_given_token :
    ∀ (q f1 f2 : String) (t1 t2 : Nat) (st1 st2 : ArcState),
      st1.chars = st2.chars →
      (google_request q f1 t1 st1).1 = (google_request q f2 t2 st2).1 := by
  intro q f1 f2 t1 t2 st1 st2 h
  simp [google_request, generate_async_value, h]

theorem google_request_deterministic_given_token_witness :
    (google_request "rust" "B" 50 ⟨"A", 0⟩).1 =
      (google_request "rust" "C" 5000 ⟨"A", 977⟩).1 :=
  google_request_deterministic_given_token "rust" "B" "C" 50 5000
    ⟨"A", 0⟩ ⟨"A", 977⟩ rfl

/-- C6 counterexample: a body that is valid JSON but not an array — the
empty object — makes `parse_autocomplete_response` return an error, not an
`Ok` with an empty suggestion sequence. -/
theorem google_autocomplete_error_on_object :
    google_parse_autocomplete_response (Json.obj []) =
      .error "invalid type: not a sequence" := by
  decide

theorem map_str_asStr :
    ∀ ss : List (List Nat),
      (ss.map Json.str).map (fun v => (Json.asStr v).getD []) = ss := by
  intro ss
  induction ss with
  | nil => rfl
  | cons s rest ih =>
    simp only [List.map_cons]
    rw [ih]
    simp [Json.asStr]

/-- C6 (amended): when the body parses as a JSON array,
`parse_autocomplete_response` returns `Ok`: a two-element array whose second
element is an array of strings yields exactly those strings in order, and a
second element that is missing or not an array yields the empty sequence;
a body that is not a JSON array (or not JSON at all) is an error. -/
theorem google_autocomplete_shape :
    ∀ (q : Json) (ss : List (List Nat)) (xs : List Json) (j : Json),
      google_parse_autocomplete_response
        (.arr [q, .arr (ss.map Json.str)]) = .ok ss ∧
      (Json.asArr (xs.getD 1 .null) = Option.none →
        google_parse_autocomplete_response (.arr xs) = .ok []) ∧
      ((∀ ys, j ≠ .arr ys) →
        google_parse_autocomplete_response j =
          .error "invalid type: not a sequence") := by
  intro q ss xs j
  refine ⟨?_, ?_, ?_⟩
  · rw [google_parse_autocomplete_response]
    simp only [List.getD, List.get?, Json.asArr, Option.getD_some,
      map_str_asStr]
  · intro h
    rw [google_parse_autocomplete_response, h]
    rfl
  · intro h
    cases j with
    | null => rfl
    | bool b => rfl
    | num n => rfl
    | str s => rfl
    | arr ys => exact absurd rfl (h ys)
    | obj fields => rfl

theorem google_autocomplete_shape_witness :
    google_parse_autocomplete_response
      (.arr [.str (bs "q"), .arr [.str (bs "alpha"), .str (bs "beta")]]) =
      .ok [bs "alpha", bs "beta"] ∧
    google_parse_autocomplete_response (.arr [.null]) = .ok [] ∧
    google_parse_autocomplete_response (.num 3) =
      .error "invalid type: not a sequence" := by
  refine ⟨?_, ?_, ?_⟩
  · exact (google_autocomplete_shape (.str (bs "q"))
      [bs "alpha", bs "beta"] [] .null).1
  · exact (google_autocomplete_shape .null [] [.null] .null).2.1 (by rfl)
  · exact (google_autocomplete_shape .null [] [] (.num 3)).2.2
      (fun ys h => by cases h)

/-- C9 counterexample: the query `ab cd` contains a character that is not
alphanumeric (the space), yet Marginalia's `request` does not decline it:
the guard exempts spaces, declining only characters that are neither
ASCII-alphanumeric nor a space. -/
theorem marginalia_space_query_not_declined :
    isAsciiAlnum ' ' = false ∧ (' ' ∈ "ab cd".toList) ∧
    marginalia_request "ab cd" (Option.some margCfg) ≠ Option.none := by
  refine ⟨by decide, by decide, by decide⟩

/-- C9 (amended): Marginalia's `request` declines (returns no request)
every query of more than three whitespace-separated words and every query
containing a character that is neither ASCII-alphanumeric nor a space,
whatever the configuration; in particular a four-word query is declined. -/
theorem marginalia_declines_long_or_nonalnum :
    ∀ (q : String) (cfg : Option MarginaliaArgs),
      (splitWhitespaceCount q > 3 ∨
        (∃ c ∈ q.toList, ¬(isAsciiAlnum c = true ∨ c = ' '))) →
      marginalia_request q cfg = Option.none := by
  intro q cfg h
  unfold marginalia_request
  rcases h with h | ⟨c, hc, hprop⟩
  · rw [if_pos (Or.inl h)]
  · refine if_pos (Or.inr ?_)
    intro hall
    rw [List.all_eq_true] at hall
    have := hall c hc
    simp only [Bool.or_eq_true, decide_eq_true_eq] at this
    rcases this with h1 | h2
    · exact hprop (Or.inl h1)
    · exact hprop (Or.inr h2)

theorem marginalia_declines_long_or_nonalnum_witness :
    marginalia_request "one two three four" (Option.some margCfg) =
      Option.none :=
  marginalia_declines_long_or_nonalnum "one two three four"
    (Option.some margCfg) (Or.inl (by decide))
